import Mathlib

/-!
Verification of the mini-rcm claims-validation system.

The frontend components (results table, rules/tenant management,
file preview) are embedded directly from their TypeScript sources.
The backend pipeline (ResultAggregator, RuleConfigStore, RuleRetriever,
PipelineOrchestrator, TechnicalRuleEngine) is not among the sources,
only its documentation; those parts are modelled from the spec and
are marked as such in their doc comments.
-/

/-! ## Frontend results table (src/frontend/components/results/results-table.tsx)

A claim row as the table receives it from the claims API.  JS arrays that
may be `undefined` are modelled as plain lists (absent = empty), and the
optional `detail` field of an error object as `Option String` (absent =
`none`; the JS truthiness test on `detail` is false for `undefined` and
for the empty string). -/

structure RuleError where
  detail : Option String
deriving Repr, DecidableEq

structure ClaimRow where
  claim_id : String
  status : String
  error_type : String
  medical_errors : List RuleError
  technical_errors : List RuleError
  data_quality_errors : List RuleError
deriving Repr, DecidableEq

/-- `getMedicalValidationStatus` from results-table.tsx. -/
def getMedicalValidationStatus (c : ClaimRow) : String :=
  if 0 < c.medical_errors.length then "FAIL" else "PASS"

/-- `getTechnicalValidationStatus` from results-table.tsx. -/
def getTechnicalValidationStatus (c : ClaimRow) : String :=
  if 0 < c.technical_errors.length ∨ 0 < c.data_quality_errors.length then "FAIL" else "PASS"

/-- `getOverallStatus` from results-table.tsx. -/
def getOverallStatus (c : ClaimRow) : String :=
  if c.status = "Validated" ∧ c.error_type = "No error" then "✅ VALID" else "❌ INVALID"

/-- JS truthiness of `error.detail`: a present, non-empty string. -/
def truthyDetail : RuleError → Bool
  | ⟨some s⟩ => !(s == "")
  | ⟨none⟩ => false

/-- The detail strings pushed by one of the three `forEach` blocks of
`getFailureReasons` (only truthy details are pushed). -/
def detailsOf (l : List RuleError) : List String :=
  l.filterMap fun e =>
    match e.detail with
    | some s => if s == "" then none else some s
    | none => none

/-- The `reasons` array of `getFailureReasons`: medical, then technical,
then data-quality details, in order. -/
def reasonsList (c : ClaimRow) : List String :=
  detailsOf c.medical_errors ++ detailsOf c.technical_errors ++ detailsOf c.data_quality_errors

/-- JS `Array.prototype.join(sep)`. -/
def joinSep (sep : String) : List String → String
  | [] => ""
  | [a] => a
  | a :: rest => a ++ sep ++ joinSep sep rest

/-- `getFailureReasons` from results-table.tsx:
`reasons.join("; ") || "No errors"` (the `||` falls through exactly when
the joined string is empty). -/
def getFailureReasons (c : ClaimRow) : String :=
  let j := joinSep "; " (reasonsList c)
  if j = "" then "No errors" else j

/-! ## ResultAggregator (modelled from the spec) -/

/-- Modelled from the spec: the PASS/FAIL outcome of one side of the LLM
verdict (`TECHNICAL_RULES_STATUS` / `MEDICAL_RULES_STATUS`); the
ResultAggregator source is not in the repository sources. -/
inductive RuleStatus
  | pass
  | fail
deriving Repr, DecidableEq

/-- `status ∈ {Validated, NotValidated, Processing}` of a ValidationResult. -/
inductive VStatus
  | Validated
  | NotValidated
  | Processing
deriving Repr, DecidableEq

/-- `error_type ∈ {NoError, TechnicalError, MedicalError, Both}`. -/
inductive ErrorType
  | NoError
  | TechnicalError
  | MedicalError
  | Both
deriving Repr, DecidableEq

/-- `error_type` "includes `TechnicalError`" in the spec's sense. -/
def ErrorType.includesTechnical : ErrorType → Prop :=
  fun et => et = ErrorType.TechnicalError ∨ et = ErrorType.Both

/-- `error_type` "includes `MedicalError`" in the spec's sense. -/
def ErrorType.includesMedical : ErrorType → Prop :=
  fun et => et = ErrorType.MedicalError ∨ et = ErrorType.Both

instance (et : ErrorType) : Decidable et.includesTechnical := by
  unfold ErrorType.includesTechnical; infer_instance

instance (et : ErrorType) : Decidable et.includesMedical := by
  unfold ErrorType.includesMedical; infer_instance

structure RuleFinding where
  rule_id : String
  severity : String
  detail : String
deriving Repr, DecidableEq

/-- Modelled from the spec: the structured LLM verdict parsed by the
LLMEvaluator (source not in the repository sources). -/
structure LLMVerdict where
  technical_status : RuleStatus
  medical_status : RuleStatus
  explanation : String
  recommended_action : String
  confidence : ℚ
deriving Repr, DecidableEq

structure ValidationResult where
  status : VStatus
  error_type : ErrorType
  findings : List RuleFinding
  llm_explanation : String
  llm_confidence : ℚ
  retrieved_rule_ids : List String
deriving Repr, DecidableEq

namespace ResultAggregator

/-- Modelled from the spec: `ResultAggregator.merge(technical_findings,
llm_verdict)`.  The deterministic technical findings alone decide the
technical component of `error_type` (the LLM's technical verdict is
advisory and never consulted for it); the LLM's medical verdict alone
decides the medical component; `Both` when both are present;
`status = Validated` iff `error_type = NoError`; explanation and
confidence are carried through unmodified. -/
def merge (technical_findings : List RuleFinding) (llm_verdict : LLMVerdict) :
    ValidationResult :=
  let technical := technical_findings ≠ []
  let medical := llm_verdict.medical_status = RuleStatus.fail
  let et :=
    if technical ∧ medical then ErrorType.Both
    else if technical then ErrorType.TechnicalError
    else if medical then ErrorType.MedicalError
    else ErrorType.NoError
  { status := if et = ErrorType.NoError then VStatus.Validated else VStatus.NotValidated
    error_type := et
    findings := technical_findings
    llm_explanation := llm_verdict.explanation
    llm_confidence := llm_verdict.confidence
    retrieved_rule_ids := [] }

end ResultAggregator

/-! ## Claim C6: deterministic, idempotent merge with overwrite semantics

The persistence collaborator keeps one ValidationResult per claim id;
re-submission of the same claim id overwrites (spec section 6).  A pipeline
run for a claim stores `merge`'s output under the claim id. -/

/-- Overwrite-semantics insert into the per-claim result store. -/
def upsertResult (s : List (String × ValidationResult)) (id : String)
    (v : ValidationResult) : List (String × ValidationResult) :=
  (id, v) :: s.filter fun p => p.1 != id

/-- Lookup in the per-claim result store. -/
def lookupResult (s : List (String × ValidationResult)) (id : String) :
    Option ValidationResult :=
  (s.find? fun p => p.1 == id).map (·.2)

/-- Modelled from the spec: one pipeline run mutates the stored
ValidationResult of a claim exactly once, writing `merge`'s output
(idempotent re-run overwrites, never appends). -/
def applyRun (s : List (String × ValidationResult)) (id : String)
    (tf : List RuleFinding) (lv : LLMVerdict) : List (String × ValidationResult) :=
  upsertResult s id (ResultAggregator.merge tf lv)

/-! ## Claim C3: default-tenant write protection

Frontend (src/unnamed/part_004, RulesManagement): the `disabled`
predicates of the three write controls and the guard inside
`handleSave`. -/

/-- The structured "Save Changes" button:
`disabled={saving || !rules || isDefaultTenant}`. -/
def saveChangesDisabled (saving rulesLoaded isDefaultTenant : Bool) : Bool :=
  saving || !rulesLoaded || isDefaultTenant

/-- The "Upload JSON File" control:
`disabled={uploading || isDefaultTenant}`. -/
def uploadJsonDisabled (uploading isDefaultTenant : Bool) : Bool :=
  uploading || isDefaultTenant

/-- The raw-JSON-view "Save JSON Changes" button: `disabled={saving}` —
no default-tenant condition. -/
def rawJsonSaveDisabled (saving : Bool) : Bool :=
  saving

/-- `handleSave`: returns early only when `rules` is falsy, otherwise it
calls `rulesApi.updateRules(ruleType, rules)` — there is no tenant check
inside the handler. -/
def handleSaveSendsUpdate (rulesLoaded : Bool) : Bool :=
  rulesLoaded

/-- Rule type of a rule set (technical | medical). -/
inductive RuleType
  | technical
  | medical
deriving Repr, DecidableEq

/-- A parsed rule set: a mapping of rule keys to values. -/
structure RuleSet where
  entries : List (String × String)
deriving Repr, DecidableEq

inductive ConfigWriteError
  | WriteRejected
  | InvalidRuleSet
deriving Repr, DecidableEq

namespace RuleConfigStore

/-- The per-tenant rule configuration store, keyed by
`(tenant_id, rule_type)`. -/
def Store := List ((String × RuleType) × RuleSet)

/-- Lookup of the stored rule set for a tenant and rule type. -/
def getStored (s : Store) (tenant_id : String) (rt : RuleType) : Option RuleSet :=
  (List.find? (fun p => p.1.1 == tenant_id && p.1.2 == rt) s).map (·.2)

/-- Modelled from the spec: `RuleConfigStore.put(tenant_id, rule_type,
RuleSet)` — the backend service source is not in the repository sources.
"`put` fails with `WriteRejected` if `tenant_id == "default"`"; otherwise
it replaces the stored entry.  Returned are the new store and the error,
if any. -/
def put (s : Store) (tenant_id : String) (rt : RuleType) (rs : RuleSet) :
    Store × Option ConfigWriteError :=
  if tenant_id = "default" then (s, some ConfigWriteError.WriteRejected)
  else (((tenant_id, rt), rs) :: List.filter (fun p => !(p.1.1 == tenant_id && p.1.2 == rt)) s,
        none)

end RuleConfigStore

/-! ## Claim C8: tenant-creation guard (src/unnamed/part_004, TenantManagement) -/

/-- JS `String.prototype.trim`: strip whitespace from both ends. -/
def jsTrim (s : String) : String :=
  ⟨((s.data.dropWhile Char.isWhitespace).reverse.dropWhile Char.isWhitespace).reverse⟩

/-- JS `String.prototype.toLowerCase` (ASCII letters). -/
def jsToLower (s : String) : String :=
  ⟨s.data.map Char.toLower⟩

/-- One character of the JS character class `[a-zA-Z0-9_-]`. -/
def tenantIdChar (c : Char) : Bool :=
  c.isAlpha || c.isDigit || c = '_' || c = '-'

/-- The JS test `/^[a-zA-Z0-9_-]+$/.test(s)`: at least one character and
every character in the class. -/
def tenantIdPatternOk (s : String) : Bool :=
  !s.data.isEmpty && s.data.all tenantIdChar

/-- `handleCreateTenant`: returns (showing a toast) without calling the
API when the trimmed id is empty, when the id lower-cased equals
`"default"`, or when the id fails the pattern test; otherwise it calls
`tenantsApi.createTenant(newTenantId, copyFromDefault)`.  The result is
the id sent with the create-tenant request, if one is issued. -/
def handleCreateTenant (newTenantId : String) : Option String :=
  if jsTrim newTenantId = "" then none
  else if jsToLower newTenantId = "default" then none
  else if !(tenantIdPatternOk newTenantId) then none
  else some newTenantId

/-- The claim row refuting C9 as stated: a single medical error whose
detail is the literal string "No errors". -/
def failureReasonsCexRow : ClaimRow :=
  ⟨"CLM-2", "Not validated", "Medical error", [⟨some "No errors"⟩], [], []⟩

/-! ## Claim C10: the file-preview CSV line parser (src/unnamed/part_005)

`parseCSVLine` is embedded over the character list of the input line.
The double-quote character is written `Char.ofNat 34`. -/

def dquote : Char := Char.ofNat 34

/-- JS `String.prototype.trim` over the characters of a string: drop
whitespace from the front, then from the back. -/
def trimChars (l : List Char) : List Char :=
  ((l.dropWhile Char.isWhitespace).reverse.dropWhile Char.isWhitespace).reverse

/-- The loop of `parseCSVLine`: a double quote toggles `inQuotes` (and is
dropped), a comma outside quotes ends the current field (pushed trimmed),
any other character is appended to the current field; the final field is
pushed trimmed when the line ends. -/
def parseCSVLineAux (chars : List Char) (current : List Char) (inQuotes : Bool) :
    List (List Char) :=
  match chars with
  | [] => [trimChars current]
  | c :: rest =>
    if c = dquote then parseCSVLineAux rest current (!inQuotes)
    else if c = ',' ∧ inQuotes = false then
      trimChars current :: parseCSVLineAux rest [] inQuotes
    else parseCSVLineAux rest (current ++ [c]) inQuotes

/-- `parseCSVLine` from the file-preview component. -/
def parseCSVLine (cs : List Char) : List (List Char) :=
  parseCSVLineAux cs [] false

/-- The number of comma characters of a line occurring outside
double-quote-delimited regions: commas at positions preceded by an even
number of double quotes. -/
def commasOutsideQuotes (cs : List Char) : Nat :=
  ((List.range cs.length).filter
    (fun i => decide (cs[i]? = some ',')
      && decide ((cs.take i).count dquote % 2 = 0))).length

/-- Recursive form of the comma count, carrying the number of double
quotes already seen. -/
def commasOutsideFrom : List Char → Nat → Nat
  | [], _ => 0
  | c :: rest, quotesSeen =>
    (if c = ',' ∧ quotesSeen % 2 = 0 then 1 else 0)
      + commasOutsideFrom rest (quotesSeen + if c = dquote then 1 else 0)

/-- A field is trimmed of surrounding whitespace: neither its first nor
its last character is whitespace. -/
def isTrimmed (f : List Char) : Prop :=
  (∀ a, f.head? = some a → a.isWhitespace = false)
    ∧ ∀ a, f.getLast? = some a → a.isWhitespace = false

instance (f : List Char) : Decidable (isTrimmed f) := by
  unfold isTrimmed
  cases f.head? <;> cases f.getLast? <;> exact inferInstance

/-- A concrete line with an unbalanced double quote:
`a,"b,c` — two fields, the second spanning the unterminated quote. -/
def csvWitnessLine : List Char := ['a', ',', Char.ofNat 34, 'b', ',', 'c']

/-! ## Claim C4: RuleRetriever (modelled from the spec)

The retriever's sources are not in the repository.  Modelled from the
spec: per-claim queries each return a list of scored chunks; the results
are merged in query order, deduplicated by content hash (first occurrence
wins), each kept chunk is ranked by the best similarity score achieved
across any query that retrieved it, and the list is truncated to the
`top_k` highest-ranked chunks. -/

structure ScoredChunk where
  contentHash : Nat
  content : String
  score : ℚ
deriving Repr, DecidableEq

namespace RuleRetriever

/-- Modelled from the spec: the best similarity score achieved for
content hash `h` among the chunks of `l`, starting from `s`. -/
def bestScoreFrom (l : List ScoredChunk) (h : Nat) (s : ℚ) : ℚ :=
  l.foldl (fun acc c => if c.contentHash = h then max acc c.score else acc) s

/-- Modelled from the spec: deduplicate by content hash, first occurrence
(in query order) wins, each kept chunk re-ranked to the best score
achieved for its hash; `seen` holds the hashes already emitted. -/
def dedupBest : List ScoredChunk → List Nat → List ScoredChunk
  | [], _ => []
  | c :: rest, seen =>
    if c.contentHash ∈ seen then dedupBest rest seen
    else { c with score := bestScoreFrom rest c.contentHash c.score }
      :: dedupBest rest (c.contentHash :: seen)

/-- Ranking order: higher similarity score first. -/
def rankGE (a b : ScoredChunk) : Prop := b.score ≤ a.score

instance : DecidableRel rankGE :=
  fun a b => inferInstanceAs (Decidable (b.score ≤ a.score))

instance : IsTotal ScoredChunk rankGE :=
  ⟨fun a b => (le_total a.score b.score).symm⟩

instance : IsTrans ScoredChunk rankGE :=
  ⟨fun _ _ _ hab hbc => le_trans hbc hab⟩

/-- Modelled from the spec: `RuleRetriever.retrieve` — merge all query
results (in query order), deduplicate by content hash keeping the first
occurrence ranked by its best achieved score, and truncate to the `top_k`
highest-ranked chunks. -/
def retrieve (queryResults : List (List ScoredChunk)) (top_k : Nat) : List ScoredChunk :=
  (List.insertionSort rankGE (dedupBest queryResults.flatten [])).take top_k

end RuleRetriever

/-- Concrete query results for the C4 witness: two queries, the first
chunk retrieved twice with different scores. -/
def retrieveWitnessQueries : List (List ScoredChunk) :=
  [[⟨1, "rule text one", (1 : ℚ)⟩, ⟨2, "rule text two", (2 : ℚ)⟩],
   [⟨1, "rule text one", (3 : ℚ)⟩]]

/-! ## Claim C5: the orchestrator returns one result per row, in order
(modelled from the spec — the PipelineOrchestrator sources are not in
the repository) -/

/-- Modelled from the spec: a raw row mapping handed over by the
ingestion collaborator; absent fields are `none`. -/
structure RawRow where
  encounter_type : Option String
  service_date : Option String
  member_id : Option String
  facility_id : Option String
  diagnosis_codes : Option (List String)
  service_code : Option String
  paid_amount : Option ℚ
  approval_number : Option String
  unique_id : Option String
  national_id : Option String

/-- The Claim record of the data model. -/
structure Claim where
  claim_id : String
  encounter_type : String
  service_date : String
  member_id : String
  facility_id : String
  diagnosis_codes : List String
  service_code : String
  paid_amount : ℚ
  approval_number : String
  unique_id : String
  national_id : String

/-- Modelled from the spec: ingestion of one raw row — a malformed row
(missing identifying fields) is fatal per-claim and routes the claim to
the `Errored` absorbing state; all other fields default when absent. -/
def ingestRow (claim_id : String) (r : RawRow) : Option Claim :=
  match r.member_id, r.service_code, r.paid_amount, r.unique_id with
  | some m, some sc, some pa, some uid =>
    some
      { claim_id := claim_id
        encounter_type := r.encounter_type.getD ""
        service_date := r.service_date.getD ""
        member_id := m
        facility_id := r.facility_id.getD ""
        diagnosis_codes := r.diagnosis_codes.getD []
        service_code := sc
        paid_amount := pa
        approval_number := r.approval_number.getD ""
        unique_id := uid
        national_id := r.national_id.getD "" }
  | _, _, _, _ => none

/-- Modelled from the spec: a technical RuleSet — thresholds, approval
lists and the identifier format; the regex is abstracted as a predicate
on the identifier. -/
structure TechnicalRuleSet where
  services_requiring_approval : List String
  diagnoses_requiring_approval : List String
  paid_amount_threshold : ℚ
  unique_id_pattern : String → Bool
  verify_segments : Bool

namespace TechnicalRuleEngine

/-- The identifier's first/middle/last fixed-width segments must equal
`national_id`, `member_id`, `facility_id` respectively. -/
def segmentsMatch (c : Claim) : Prop :=
  (c.unique_id.toList.take 4 = c.national_id.toList
    ∧ ((c.unique_id.toList.drop 5).take 4 = c.member_id.toList)
    ∧ (c.unique_id.toList.drop 10).take 4 = c.facility_id.toList)

instance (c : Claim) : Decidable (segmentsMatch c) := by
  unfold segmentsMatch
  infer_instance

/-- Modelled from the spec: `TechnicalRuleEngine.evaluate(claim,
ruleset)` — a pure function; all four checks are evaluated, none
short-circuits, every violation is reported. -/
def evaluate (c : Claim) (rs : TechnicalRuleSet) : List RuleFinding :=
  (if c.service_code ∈ rs.services_requiring_approval ∧ c.approval_number = "" then
      [⟨"SERVICE_APPROVAL", "error", "service requires prior approval"⟩]
    else [])
  ++ (if (c.diagnosis_codes.any fun d => d ∈ rs.diagnoses_requiring_approval)
        ∧ c.approval_number = "" then
      [⟨"DIAGNOSIS_APPROVAL", "error", "diagnosis requires prior approval"⟩]
    else [])
  ++ (if rs.paid_amount_threshold < c.paid_amount then
      [⟨"PAID_AMOUNT_THRESHOLD", "error", "paid amount exceeds threshold"⟩]
    else [])
  ++ (if rs.unique_id_pattern c.unique_id = false then
      [⟨"UNIQUE_ID_FORMAT", "error", "unique id does not match the required pattern"⟩]
    else [])
  ++ (if rs.verify_segments = true ∧ ¬ segmentsMatch c then
      [⟨"UNIQUE_ID_SEGMENTS", "error",
        "unique id segments do not match national, member and facility ids"⟩]
    else [])

end TechnicalRuleEngine

/-- Modelled from the spec: the collaborators the orchestrator drives for
one tenant — the technical rule set from the RuleConfigStore, the
retrieval collaborator, and the LLM evaluation (an opaque synchronous
call whose parsed outcome is an LLMVerdict). -/
structure PipelineEnv where
  rules : TechnicalRuleSet
  retrieveFor : Claim → List ScoredChunk
  llmEvaluate : Claim → List ScoredChunk → LLMVerdict

namespace PipelineOrchestrator

/-- The terminal result of a claim that never leaves the `Errored`
absorbing state: reported, never dropped. -/
def erroredResult : ValidationResult :=
  { status := VStatus.NotValidated
    error_type := ErrorType.TechnicalError
    findings := [⟨"MALFORMED_INPUT", "error", "row could not be ingested"⟩]
    llm_explanation := "malformed row: the claim was not evaluated"
    llm_confidence := 0
    retrieved_rule_ids := [] }

/-- Modelled from the spec: the per-claim pipeline — ingestion, technical
evaluation, retrieval, LLM evaluation, aggregation; every claim reaches a
terminal result. -/
def processRow (env : PipelineEnv) (claim_id : String) (row : RawRow) : ValidationResult :=
  match ingestRow claim_id row with
  | none => erroredResult
  | some claim =>
    let tf := TechnicalRuleEngine.evaluate claim env.rules
    let chunks := env.retrieveFor claim
    let lv := env.llmEvaluate claim chunks
    { ResultAggregator.merge tf lv with retrieved_rule_ids := chunks.map (·.content) }

/-- Modelled from the spec: the orchestrator dispatches every row of the
batch independently and collects the results. -/
def runBatch (env : PipelineEnv) : List (String × RawRow) → List ValidationResult
  | [] => []
  | (cid, r) :: rest => processRow env cid r :: runBatch env rest

end PipelineOrchestrator

/-- A concrete environment for exercising the pipeline: simple technical
rules, empty retrieval, a fixed PASS verdict. -/
def pipelineWitnessEnv : PipelineEnv :=
  { rules :=
      { services_requiring_approval := ["SRV1001"]
        diagnoses_requiring_approval := ["E11.9"]
        paid_amount_threshold := 5000
        unique_id_pattern := fun _ => true
        verify_segments := false }
    retrieveFor := fun _ => []
    llmEvaluate := fun _ _ => ⟨RuleStatus.pass, RuleStatus.pass, "ok", "approve", 1⟩ }

/-- Two concrete rows for exercising the pipeline: one complete, one
malformed (missing `member_id`). -/
def pipelineWitnessRows : List (String × RawRow) :=
  [("CLM-1", ⟨some "OUTPATIENT", some "2024-01-01", some "M001", some "F001",
      some ["E11.9"], some "SRV2007", some 6000, some "", some "UID-0001", some "N001"⟩),
   ("CLM-2", ⟨none, none, none, none, none, some "SRV2007", some 100, none, some "U", none⟩)]
/-! ## Claims C1, C2, C7 -/

/-- C1: whenever the deterministic technical findings are non-empty, the
merged `error_type` includes `TechnicalError` — whatever the LLM verdict
says — and the technical validation status shown by the results table
is FAIL whenever `technical_errors` is non-empty, without consulting any
LLM field. -/
theorem technical_dominance :
    (∀ (tf : List RuleFinding) (lv : LLMVerdict),
        tf ≠ [] → (ResultAggregator.merge tf lv).error_type.includesTechnical)
    ∧ ∀ c : ClaimRow, c.technical_errors ≠ [] → getTechnicalValidationStatus c = "FAIL" := by
  constructor
  · intro tf lv htf
    unfold ResultAggregator.merge ErrorType.includesTechnical
    by_cases hm : lv.medical_status = RuleStatus.fail <;> simp [htf, hm]
  · intro c hc
    unfold getTechnicalValidationStatus
    have : 0 < c.technical_errors.length := List.length_pos.mpr hc
    simp [this]

/-- Witness for C1 at a concrete claim and verdict: one technical finding,
an LLM verdict that reports technical PASS, a claim row with one
technical error. -/
theorem technical_dominance_witness :
    (ResultAggregator.merge [⟨"PAID_AMOUNT_THRESHOLD", "error", "amount exceeds threshold"⟩]
        ⟨RuleStatus.pass, RuleStatus.pass, "ok", "approve", 1⟩).error_type.includesTechnical
    ∧ getTechnicalValidationStatus
        ⟨"CLM-1", "Not validated", "Technical error", [], [⟨some "amount exceeds threshold"⟩], []⟩
        = "FAIL" :=
  ⟨technical_dominance.1 _ _ (by decide),
   technical_dominance.2 _ (by decide)⟩

/-- C7: membership of `MedicalError` in the merged `error_type` is decided
solely by the LLM medical verdict — it holds exactly when the medical
evaluation reports failure, and changing the technical findings never
adds or removes it — and the table's medical validation status is FAIL
exactly when `medical_errors` is non-empty. -/
theorem medical_error_from_llm :
    (∀ (tf : List RuleFinding) (lv : LLMVerdict),
        (ResultAggregator.merge tf lv).error_type.includesMedical
          ↔ lv.medical_status = RuleStatus.fail)
    ∧ (∀ (tf tf' : List RuleFinding) (lv : LLMVerdict),
        (ResultAggregator.merge tf lv).error_type.includesMedical
          ↔ (ResultAggregator.merge tf' lv).error_type.includesMedical)
    ∧ ∀ c : ClaimRow, getMedicalValidationStatus c = "FAIL" ↔ c.medical_errors ≠ [] := by
  have key : ∀ (tf : List RuleFinding) (lv : LLMVerdict),
      (ResultAggregator.merge tf lv).error_type.includesMedical
        ↔ lv.medical_status = RuleStatus.fail := by
    intro tf lv
    unfold ResultAggregator.merge ErrorType.includesMedical
    by_cases ht : tf = [] <;> by_cases hm : lv.medical_status = RuleStatus.fail <;>
      simp [ht, hm]
  refine ⟨key, fun tf tf' lv => (key tf lv).trans (key tf' lv).symm, ?_⟩
  intro c
  unfold getMedicalValidationStatus
  by_cases h : 0 < c.medical_errors.length
  · simp [h, List.length_pos.mp h]
  · have : c.medical_errors = [] := by
      cases hc : c.medical_errors with
      | nil => rfl
      | cons a t => exact absurd (by simp [hc]) h
    simp [h, this]

/-- C6: `merge` is a pure function, so identical inputs give identical
(byte-identical) results; re-running the pipeline for the same claim with
the same inputs leaves the store unchanged (overwrite, not append), and
the stored findings after any number of runs are exactly the findings of
one `merge`, never duplicated. -/
theorem merge_idempotent :
    ∀ (s : List (String × ValidationResult)) (id : String)
      (tf : List RuleFinding) (lv : LLMVerdict),
      applyRun (applyRun s id tf lv) id tf lv = applyRun s id tf lv
      ∧ lookupResult (applyRun s id tf lv) id = some (ResultAggregator.merge tf lv)
      ∧ (lookupResult (applyRun (applyRun s id tf lv) id tf lv) id).map
          (fun v => v.findings) = some tf := by
  intro s id tf lv
  have hidem : applyRun (applyRun s id tf lv) id tf lv = applyRun s id tf lv := by
    unfold applyRun upsertResult
    congr 1
    rw [List.filter_cons, if_neg (by simp), List.filter_filter]
    exact List.filter_congr fun p _ => by simp
  have hlook : lookupResult (applyRun s id tf lv) id
      = some (ResultAggregator.merge tf lv) := by
    unfold applyRun upsertResult lookupResult
    rw [List.find?_cons]
    simp
  refine ⟨hidem, hlook, ?_⟩
  rw [hidem, hlook]
  simp [ResultAggregator.merge]

/-- C3 (code evaluated at the failing input): the backend guard itself
holds — `put` on the `"default"` tenant always fails with `WriteRejected`
and leaves the store (hence the default tenant's stored RuleSet)
unchanged — but the frontend raw-JSON save path does not enforce it:
with the default tenant active, rules loaded and no save in flight, the
structured save button is disabled while the "Save JSON Changes" button
is enabled, and `handleSave` then issues the update request. -/
theorem default_tenant_raw_json_gap :
    (∀ (s : RuleConfigStore.Store) (rt : RuleType) (rs : RuleSet),
        RuleConfigStore.put s "default" rt rs = (s, some ConfigWriteError.WriteRejected))
    ∧ saveChangesDisabled false true true = true
    ∧ uploadJsonDisabled false true = true
    ∧ rawJsonSaveDisabled false = false
    ∧ handleSaveSendsUpdate true = true := by
  refine ⟨fun s rt rs => ?_, rfl, rfl, rfl, rfl⟩
  unfold RuleConfigStore.put
  rw [if_pos rfl]

/-- C8: a create-tenant request is issued exactly when the trimmed id is
non-empty, the lower-cased id differs from "default", and the id matches
`^[a-zA-Z0-9_-]+$`; any input violating one of the three conditions
issues no request. -/
theorem create_tenant_guard :
    ∀ s : String,
      (handleCreateTenant s).isSome
        ↔ (jsTrim s ≠ "" ∧ jsToLower s ≠ "default" ∧ tenantIdPatternOk s = true) := by
  intro s
  unfold handleCreateTenant
  by_cases h1 : jsTrim s = "" <;> by_cases h2 : jsToLower s = "default" <;>
    by_cases h3 : tenantIdPatternOk s = true <;> simp [h1, h2, h3]


/-! ## Claim C9: the failure-reasons string -/

/-- A string is empty exactly when its length is zero. -/
theorem string_eq_empty_of_length_zero {s : String} (h : s.length = 0) : s = "" := by
  cases s with
  | mk data =>
    simp [String.length] at h
    simp [h]

/-- `join("; ")` of a list of non-empty strings is empty exactly when the
list is empty. -/
theorem joinSep_eq_empty_iff (l : List String) (h : ∀ x ∈ l, x ≠ "") :
    joinSep "; " l = "" ↔ l = [] := by
  constructor
  · intro he
    match l, h, he with
    | [], _, _ => rfl
    | [a], h, he => exact absurd he (h a (by simp))
    | a :: b :: rest, h, he =>
      exfalso
      have hlen := congrArg String.length he
      rw [show joinSep "; " (a :: b :: rest)
            = a ++ "; " ++ joinSep "; " (b :: rest) from rfl] at hlen
      rw [String.length_append, String.length_append] at hlen
      rw [show ("; " : String).length = 2 from rfl,
          show ("" : String).length = 0 from rfl] at hlen
      omega
  · rintro rfl
    rfl

/-- Every string collected into the `reasons` array is non-empty (the JS
truthiness test filters out the empty string). -/
theorem mem_detailsOf_ne_empty {l : List RuleError} {x : String}
    (hx : x ∈ detailsOf l) : x ≠ "" := by
  unfold detailsOf at hx
  obtain ⟨e, _, he⟩ := List.mem_filterMap.mp hx
  match e with
  | ⟨some s⟩ =>
    by_cases hs : s == ""
    · simp [hs] at he
    · simp [hs] at he
      subst he
      simpa using hs
  | ⟨none⟩ => simp at he

/-- One `forEach` block contributes nothing exactly when none of its
errors carries a truthy detail. -/
theorem detailsOf_eq_nil_iff (l : List RuleError) :
    detailsOf l = [] ↔ l.all (fun e => !truthyDetail e) = true := by
  unfold detailsOf
  rw [List.filterMap_eq_nil_iff, List.all_eq_true]
  refine forall_congr' fun e => ?_
  refine imp_congr Iff.rfl ?_
  match e with
  | ⟨some s⟩ =>
    by_cases hs : s == "" <;> simp [truthyDetail, hs]
  | ⟨none⟩ => simp [truthyDetail]
/-- C9 counterexample: for this row `getFailureReasons` returns the
literal "No errors" even though one entry carries a detail value, so the
claimed "exactly when" equivalence is false at this input. -/
theorem failure_reasons_counterexample :
    ¬ (getFailureReasons failureReasonsCexRow = "No errors"
        ↔ (failureReasonsCexRow.medical_errors ++ failureReasonsCexRow.technical_errors
            ++ failureReasonsCexRow.data_quality_errors).all
            (fun e => !truthyDetail e) = true) := by
  decide

/-- C9 amended: the failure-reasons string is the "; "-join of the truthy
detail strings of the medical, then technical, then data-quality errors,
in that order; the fallback literal "No errors" is produced exactly when
that list of details is empty, i.e. when no entry of the three lists
carries a (non-empty) detail value.  (The output merely *equalling*
"No errors" does not imply the absence of details, as the counterexample
shows.) -/
theorem failure_reasons_amended :
    ∀ c : ClaimRow,
      getFailureReasons c
        = (if reasonsList c = [] then "No errors" else joinSep "; " (reasonsList c))
      ∧ (reasonsList c = []
          ↔ (c.medical_errors ++ c.technical_errors ++ c.data_quality_errors).all
              (fun e => !truthyDetail e) = true) := by
  intro c
  have hne : ∀ x ∈ reasonsList c, x ≠ "" := by
    intro x hx
    unfold reasonsList at hx
    rcases List.mem_append.mp hx with hx | hx
    · rcases List.mem_append.mp hx with hx | hx
      · exact mem_detailsOf_ne_empty hx
      · exact mem_detailsOf_ne_empty hx
    · exact mem_detailsOf_ne_empty hx
  constructor
  · unfold getFailureReasons
    by_cases h : reasonsList c = []
    · rw [if_pos ((joinSep_eq_empty_iff _ hne).mpr h), if_pos h]
    · rw [if_neg (fun he => h ((joinSep_eq_empty_iff _ hne).mp he)), if_neg h]
  · unfold reasonsList
    rw [List.append_assoc, List.append_eq_nil, List.append_eq_nil]
    rw [detailsOf_eq_nil_iff, detailsOf_eq_nil_iff, detailsOf_eq_nil_iff]
    rw [List.append_assoc, List.all_append, List.all_append]
    simp [Bool.and_eq_true, and_assoc]

/-- The recursive comma count agrees with the positional one. -/
theorem commasOutsideFrom_spec :
    ∀ (cs : List Char) (k : Nat),
      commasOutsideFrom cs k
        = ((List.range cs.length).filter
            (fun i => decide (cs[i]? = some ',')
              && decide (((cs.take i).count dquote + k) % 2 = 0))).length := by
  intro cs
  induction cs with
  | nil => intro k; rfl
  | cons c rest ih =>
    intro k
    rw [show commasOutsideFrom (c :: rest) k
          = (if c = ',' ∧ k % 2 = 0 then 1 else 0)
            + commasOutsideFrom rest (k + if c = dquote then 1 else 0) from rfl]
    rw [List.length_cons, List.range_succ_eq_map, List.filter_cons]
    have hmap : List.filter
        (fun i => decide ((c :: rest)[i]? = some ',')
          && decide ((((c :: rest).take i).count dquote + k) % 2 = 0))
        (List.map Nat.succ (List.range rest.length))
        = List.map Nat.succ (List.filter
            (fun i => decide (rest[i]? = some ',')
              && decide (((rest.take i).count dquote
                  + (k + if c = dquote then 1 else 0)) % 2 = 0))
            (List.range rest.length)) := by
      rw [List.filter_map]
      congr 1
      apply List.filter_congr
      intro i _
      simp only [Function.comp_apply, List.getElem?_cons_succ, List.take_succ_cons,
        List.count_cons, beq_iff_eq]
      congr 1
      rw [decide_eq_decide]
      by_cases hcd : c = dquote <;> simp [hcd]
      omega
    rw [hmap]
    by_cases h0 : c = ',' ∧ k % 2 = 0
    · have hpred : (decide ((c :: rest)[0]? = some ',')
          && decide ((List.count dquote (List.take 0 (c :: rest)) + k) % 2 = 0)) = true := by
        simp [h0.1, h0.2]
      rw [if_pos hpred, if_pos h0]
      have hcd : (if c = dquote then 1 else 0) = 0 := by
        rw [if_neg]
        rw [h0.1]
        decide
      rw [hcd, List.length_cons, List.length_map, ih]
      omega
    · have hnot : ¬ ((decide ((c :: rest)[0]? = some ',')
          && decide ((List.count dquote (List.take 0 (c :: rest)) + k) % 2 = 0)) = true) := by
        intro hc
        apply h0
        simp only [List.getElem?_cons_zero, Option.some.injEq, List.take_zero,
          List.count_nil, Nat.zero_add, Bool.and_eq_true, decide_eq_true_eq] at hc
        exact hc
      rw [if_neg hnot, if_neg h0]
      rw [List.length_map, ih]
      omega

/-- The parser loop returns one field more than the number of outside
commas in the remaining input, whatever the accumulated field; the
quotes-seen counter and the `inQuotes` flag agree in parity. -/
theorem parseCSVLineAux_length :
    ∀ (chars current : List Char) (q : Bool) (k : Nat),
      (q = true ↔ k % 2 = 1) →
      (parseCSVLineAux chars current q).length = commasOutsideFrom chars k + 1 := by
  intro chars
  induction chars with
  | nil =>
    intro current q k hk
    rfl
  | cons c rest ih =>
    intro current q k hk
    rw [show commasOutsideFrom (c :: rest) k
          = (if c = ',' ∧ k % 2 = 0 then 1 else 0)
            + commasOutsideFrom rest (k + if c = dquote then 1 else 0) from rfl]
    by_cases hq : c = dquote
    · rw [show parseCSVLineAux (c :: rest) current q
            = parseCSVLineAux rest current (!q) from by
          rw [show parseCSVLineAux (c :: rest) current q
                = if c = dquote then parseCSVLineAux rest current (!q)
                  else if c = ',' ∧ q = false then
                    trimChars current :: parseCSVLineAux rest [] q
                  else parseCSVLineAux rest (current ++ [c]) q from rfl]
          rw [if_pos hq]]
      have hcomma : ¬ (c = ',' ∧ k % 2 = 0) := by
        intro h
        rw [hq] at h
        exact absurd h.1 (by decide)
      rw [if_neg hcomma, if_pos hq]
      rw [ih current (!q) (k + 1) (by
        cases q with
        | false =>
          have hk0 := (not_iff_not.mpr hk).mp (by simp)
          rw [Bool.not_false]
          constructor
          · intro _
            omega
          · intro _
            rfl
        | true =>
          have hk1 := hk.mp rfl
          rw [Bool.not_true]
          constructor
          · intro h
            exact absurd h (by decide)
          · intro h
            exfalso
            omega)]
      omega
    · rw [show parseCSVLineAux (c :: rest) current q
            = if c = ',' ∧ q = false then
                trimChars current :: parseCSVLineAux rest [] q
              else parseCSVLineAux rest (current ++ [c]) q from by
          rw [show parseCSVLineAux (c :: rest) current q
                = if c = dquote then parseCSVLineAux rest current (!q)
                  else if c = ',' ∧ q = false then
                    trimChars current :: parseCSVLineAux rest [] q
                  else parseCSVLineAux rest (current ++ [c]) q from rfl]
          rw [if_neg hq]]
      rw [show (if c = dquote then 1 else 0) = 0 from if_neg hq]
      by_cases hc : c = ',' ∧ q = false
      · have hk0 : k % 2 = 0 := by
          have := (not_iff_not.mpr hk).mp (by simp [hc.2])
          omega
        rw [if_pos hc, if_pos ⟨hc.1, hk0⟩, List.length_cons,
          ih [] q (k + 0) (by simpa using hk)]
        omega
      · have hcomma : ¬ (c = ',' ∧ k % 2 = 0) := by
          intro h
          apply hc
          refine ⟨h.1, ?_⟩
          cases q with
          | false => rfl
          | true => exact absurd (hk.mp rfl) (by omega)
        rw [if_neg hc, if_neg hcomma, ih (current ++ [c]) q (k + 0) (by simpa using hk)]
        omega

/-- The first element surviving `dropWhile p` fails `p`. -/
theorem head_dropWhile_false (p : Char → Bool) :
    ∀ (l : List Char) (a : Char), (l.dropWhile p).head? = some a → p a = false := by
  intro l
  induction l with
  | nil =>
    intro a h
    simp at h
  | cons b t ih =>
    intro a h
    rw [List.dropWhile_cons] at h
    by_cases hb : p b = true
    · rw [if_pos hb] at h
      exact ih a h
    · rw [if_neg hb] at h
      rw [List.head?_cons] at h
      have hba : b = a := by
        injection h
      subst hba
      simpa using hb

/-- `dropWhile` only removes from the front: when the result is non-empty
its last element is the original last element. -/
theorem getLast_dropWhile (p : Char → Bool) :
    ∀ l : List Char, l.dropWhile p ≠ [] → (l.dropWhile p).getLast? = l.getLast? := by
  intro l
  induction l with
  | nil =>
    intro h
    exact absurd rfl h
  | cons b t ih =>
    intro h
    rw [List.dropWhile_cons] at h ⊢
    by_cases hb : p b = true
    · rw [if_pos hb] at h ⊢
      rw [ih h]
      have ht : t ≠ [] := by
        intro he
        rw [he] at h
        exact h rfl
      cases t with
      | nil => exact absurd rfl ht
      | cons x t2 => rw [List.getLast?_cons_cons]
    · rw [if_neg hb]

/-- The first character of a trimmed field is not whitespace. -/
theorem trimChars_head_not_ws (l : List Char) (a : Char)
    (h : (trimChars l).head? = some a) : a.isWhitespace = false := by
  unfold trimChars at h
  rw [List.head?_reverse] at h
  have hne : (List.dropWhile Char.isWhitespace
      ((List.dropWhile Char.isWhitespace l).reverse)) ≠ [] := by
    intro he
    rw [he] at h
    simp at h
  rw [getLast_dropWhile _ _ hne, List.getLast?_reverse] at h
  exact head_dropWhile_false _ _ _ h

/-- The last character of a trimmed field is not whitespace. -/
theorem trimChars_getLast_not_ws (l : List Char) (a : Char)
    (h : (trimChars l).getLast? = some a) : a.isWhitespace = false := by
  unfold trimChars at h
  rw [List.getLast?_reverse] at h
  exact head_dropWhile_false _ _ _ h

theorem trimChars_isTrimmed (l : List Char) : isTrimmed (trimChars l) :=
  ⟨fun a h => trimChars_head_not_ws l a h, fun a h => trimChars_getLast_not_ws l a h⟩

/-- Every field the parser loop emits is the result of `trimChars`. -/
theorem mem_parseCSVLineAux :
    ∀ (chars current : List Char) (q : Bool) (f : List Char),
      f ∈ parseCSVLineAux chars current q → ∃ raw, f = trimChars raw := by
  intro chars
  induction chars with
  | nil =>
    intro current q f hf
    rw [show parseCSVLineAux [] current q = [trimChars current] from rfl] at hf
    exact ⟨current, by simpa using hf⟩
  | cons c rest ih =>
    intro current q f hf
    rw [show parseCSVLineAux (c :: rest) current q
          = if c = dquote then parseCSVLineAux rest current (!q)
            else if c = ',' ∧ q = false then
              trimChars current :: parseCSVLineAux rest [] q
            else parseCSVLineAux rest (current ++ [c]) q from rfl] at hf
    by_cases hq : c = dquote
    · rw [if_pos hq] at hf
      exact ih current (!q) f hf
    · rw [if_neg hq] at hf
      by_cases hc : c = ',' ∧ q = false
      · rw [if_pos hc] at hf
        rcases List.mem_cons.mp hf with hf | hf
        · exact ⟨current, hf⟩
        · exact ih [] q f hf
      · rw [if_neg hc] at hf
        exact ih (current ++ [c]) q f hf

/-- C10: the CSV line parser of the file-preview component is total — it
returns a field list for every input line, even with unbalanced double
quotes — the number of fields is exactly one more than the number of
comma characters occurring outside double-quote-delimited regions of the
line (commas preceded by an even number of double quotes), and every
returned field is trimmed of surrounding whitespace. -/
theorem parseCSVLine_fields :
    ∀ cs : List Char,
      (parseCSVLine cs).length = commasOutsideQuotes cs + 1
      ∧ ∀ f ∈ parseCSVLine cs, isTrimmed f := by
  intro cs
  constructor
  · rw [show parseCSVLine cs = parseCSVLineAux cs [] false from rfl]
    rw [parseCSVLineAux_length cs [] false 0 (by simp)]
    rw [commasOutsideFrom_spec]
    unfold commasOutsideQuotes
    have heq : (fun i => decide (cs[i]? = some ',')
          && decide (((cs.take i).count dquote + 0) % 2 = 0))
        = fun i => decide (cs[i]? = some ',')
            && decide ((cs.take i).count dquote % 2 = 0) := by
      funext i
      rw [Nat.add_zero]
    rw [heq]
  · intro f hf
    obtain ⟨raw, rfl⟩ := mem_parseCSVLineAux cs [] false f hf
    exact trimChars_isTrimmed raw

/-- Witness for C10 at the concrete line: one field more than outside
commas, and the second emitted field is trimmed. -/
theorem parseCSVLine_fields_witness :
    (parseCSVLine csvWitnessLine).length = commasOutsideQuotes csvWitnessLine + 1
    ∧ isTrimmed ['b', ',', 'c'] :=
  ⟨(parseCSVLine_fields csvWitnessLine).1,
   (parseCSVLine_fields csvWitnessLine).2 ['b', ',', 'c'] (by decide)⟩

namespace RuleRetriever

theorem bestScoreFrom_cons (d : ScoredChunk) (t : List ScoredChunk) (h : Nat) (s : ℚ) :
    bestScoreFrom (d :: t) h s
      = bestScoreFrom t h (if d.contentHash = h then max s d.score else s) :=
  rfl

theorem le_bestScoreFrom :
    ∀ (l : List ScoredChunk) (h : Nat) (s : ℚ), s ≤ bestScoreFrom l h s := by
  intro l
  induction l with
  | nil =>
    intro h s
    exact le_refl s
  | cons d t ih =>
    intro h s
    rw [bestScoreFrom_cons]
    refine le_trans ?_ (ih h _)
    by_cases hd : d.contentHash = h
    · rw [if_pos hd]
      exact le_max_left _ _
    · rw [if_neg hd]

theorem mem_le_bestScoreFrom :
    ∀ (l : List ScoredChunk) (h : Nat) (s : ℚ) (d : ScoredChunk),
      d ∈ l → d.contentHash = h → d.score ≤ bestScoreFrom l h s := by
  intro l
  induction l with
  | nil =>
    intro h s d hd
    exact absurd hd (List.not_mem_nil d)
  | cons e t ih =>
    intro h s d hd hh
    rw [bestScoreFrom_cons]
    rcases List.mem_cons.mp hd with rfl | hd
    · rw [if_pos hh]
      exact le_trans (le_max_right _ _) (le_bestScoreFrom t h _)
    · exact ih h _ d hd hh

theorem bestScoreFrom_attained :
    ∀ (l : List ScoredChunk) (h : Nat) (s : ℚ),
      bestScoreFrom l h s = s
      ∨ ∃ d ∈ l, d.contentHash = h ∧ bestScoreFrom l h s = d.score := by
  intro l
  induction l with
  | nil =>
    intro h s
    exact Or.inl rfl
  | cons e t ih =>
    intro h s
    rw [bestScoreFrom_cons]
    by_cases he : e.contentHash = h
    · rw [if_pos he]
      rcases ih h (max s e.score) with h1 | ⟨d, hd, hh, heq⟩
      · rcases max_choice s e.score with h2 | h2
        · exact Or.inl (h1.trans h2)
        · exact Or.inr ⟨e, List.mem_cons_self e t, he, h1.trans h2⟩
      · exact Or.inr ⟨d, List.mem_cons_of_mem e hd, hh, heq⟩
    · rw [if_neg he]
      rcases ih h s with h1 | ⟨d, hd, hh, heq⟩
      · exact Or.inl h1
      · exact Or.inr ⟨d, List.mem_cons_of_mem e hd, hh, heq⟩

theorem mem_dedupBest_not_seen :
    ∀ (l : List ScoredChunk) (seen : List Nat) (c : ScoredChunk),
      c ∈ dedupBest l seen → c.contentHash ∉ seen := by
  intro l
  induction l with
  | nil =>
    intro seen c hc
    exact absurd hc (List.not_mem_nil c)
  | cons a t ih =>
    intro seen c hc
    rw [show dedupBest (a :: t) seen
          = if a.contentHash ∈ seen then dedupBest t seen
            else { a with score := bestScoreFrom t a.contentHash a.score }
              :: dedupBest t (a.contentHash :: seen) from rfl] at hc
    by_cases ha : a.contentHash ∈ seen
    · rw [if_pos ha] at hc
      exact ih seen c hc
    · rw [if_neg ha] at hc
      rcases List.mem_cons.mp hc with rfl | hc
      · exact ha
      · intro hmem
        exact ih _ c hc (List.mem_cons_of_mem _ hmem)

theorem dedupBest_cons (a : ScoredChunk) (t : List ScoredChunk) (seen : List Nat) :
    dedupBest (a :: t) seen
      = if a.contentHash ∈ seen then dedupBest t seen
        else { a with score := bestScoreFrom t a.contentHash a.score }
          :: dedupBest t (a.contentHash :: seen) :=
  rfl

/-- Every chunk emitted by the dedup pass carries the content of the
first merged chunk (in query order) with its content hash. -/
theorem mem_dedupBest_first_occurrence :
    ∀ (l : List ScoredChunk) (seen : List Nat) (c : ScoredChunk),
      c ∈ dedupBest l seen →
      ∃ d, l.find? (fun e => e.contentHash == c.contentHash) = some d
        ∧ d.content = c.content ∧ d.contentHash = c.contentHash := by
  intro l
  induction l with
  | nil =>
    intro seen c hc
    exact absurd hc (List.not_mem_nil c)
  | cons a t ih =>
    intro seen c hc
    have hcseen := mem_dedupBest_not_seen (a :: t) seen c hc
    rw [dedupBest_cons] at hc
    by_cases ha : a.contentHash ∈ seen
    · rw [if_pos ha] at hc
      have hne : (a.contentHash == c.contentHash) = false := by
        simp only [beq_eq_false_iff_ne, ne_eq]
        intro he
        exact hcseen (he ▸ ha)
      rw [List.find?_cons, hne]
      exact ih seen c hc
    · rw [if_neg ha] at hc
      rcases List.mem_cons.mp hc with rfl | hc
      · refine ⟨a, ?_, rfl, rfl⟩
        rw [List.find?_cons, show (a.contentHash
            == ({ a with score := bestScoreFrom t a.contentHash a.score } :
              ScoredChunk).contentHash) = true from by simp]
      · have hcs := mem_dedupBest_not_seen t _ c hc
        have hne : (a.contentHash == c.contentHash) = false := by
          simp only [beq_eq_false_iff_ne, ne_eq]
          intro he
          exact hcs (by rw [← he]; exact List.mem_cons_self _ _)
        rw [List.find?_cons, hne]
        exact ih _ c hc

/-- Every chunk emitted by the dedup pass is ranked at the best
similarity score achieved for its hash among the merged results, and
that score is attained by some merged chunk. -/
theorem mem_dedupBest_best_score :
    ∀ (l : List ScoredChunk) (seen : List Nat) (c : ScoredChunk),
      c ∈ dedupBest l seen →
      (∀ d ∈ l, d.contentHash = c.contentHash → d.score ≤ c.score)
      ∧ ∃ d ∈ l, d.contentHash = c.contentHash ∧ d.score = c.score := by
  intro l
  induction l with
  | nil =>
    intro seen c hc
    exact absurd hc (List.not_mem_nil c)
  | cons a t ih =>
    intro seen c hc
    rw [dedupBest_cons] at hc
    by_cases ha : a.contentHash ∈ seen
    · rw [if_pos ha] at hc
      have hcs := mem_dedupBest_not_seen t seen c hc
      have hne : a.contentHash ≠ c.contentHash := fun he => hcs (he ▸ ha)
      refine ⟨?_, ?_⟩
      · intro d hd hh
        rcases List.mem_cons.mp hd with rfl | hd
        · exact absurd hh hne
        · exact (ih seen c hc).1 d hd hh
      · obtain ⟨d, hd, hh, hs⟩ := (ih seen c hc).2
        exact ⟨d, List.mem_cons_of_mem a hd, hh, hs⟩
    · rw [if_neg ha] at hc
      rcases List.mem_cons.mp hc with rfl | hc
      · refine ⟨?_, ?_⟩
        · intro d hd hh
          rcases List.mem_cons.mp hd with rfl | hd
          · exact le_bestScoreFrom t _ _
          · exact mem_le_bestScoreFrom t _ _ d hd hh
        · rcases bestScoreFrom_attained t a.contentHash a.score with h1 | ⟨d, hd, hh, heq⟩
          · exact ⟨a, List.mem_cons_self a t, rfl, h1.symm⟩
          · exact ⟨d, List.mem_cons_of_mem a hd, hh, heq.symm⟩
      · have hcs := mem_dedupBest_not_seen t _ c hc
        have hne : a.contentHash ≠ c.contentHash := by
          intro he
          exact hcs (by rw [← he]; exact List.mem_cons_self _ _)
        refine ⟨?_, ?_⟩
        · intro d hd hh
          rcases List.mem_cons.mp hd with rfl | hd
          · exact absurd hh hne
          · exact (ih _ c hc).1 d hd hh
        · obtain ⟨d, hd, hh, hs⟩ := (ih _ c hc).2
          exact ⟨d, List.mem_cons_of_mem a hd, hh, hs⟩

/-- The dedup pass never emits two chunks with the same content hash. -/
theorem dedupBest_pairwise :
    ∀ (l : List ScoredChunk) (seen : List Nat),
      (dedupBest l seen).Pairwise (fun a b => a.contentHash ≠ b.contentHash) := by
  intro l
  induction l with
  | nil =>
    intro seen
    exact List.Pairwise.nil
  | cons a t ih =>
    intro seen
    rw [dedupBest_cons]
    by_cases ha : a.contentHash ∈ seen
    · rw [if_pos ha]
      exact ih seen
    · rw [if_neg ha]
      refine List.Pairwise.cons ?_ (ih _)
      intro b hb he
      have hbs := mem_dedupBest_not_seen t _ b hb
      apply hbs
      rw [← he]
      exact List.mem_cons_self _ _
end RuleRetriever


/-- C4: for every family of per-query results and every `top_k`,
`retrieve` returns an ordered list in which no two chunks share a content
hash; each returned chunk carries the content of its first occurrence in
query order among the merged results; its rank is the best similarity
score achieved for its hash across all queries (an upper bound that is
attained); the list is truncated to at most `top_k` entries; and every
returned chunk ranks at least as high as every deduplicated chunk that
was left out. -/
theorem retrieve_dedup_and_rank :
    ∀ (queryResults : List (List ScoredChunk)) (top_k : Nat),
      (RuleRetriever.retrieve queryResults top_k).Pairwise
        (fun a b => a.contentHash ≠ b.contentHash)
      ∧ (RuleRetriever.retrieve queryResults top_k).length ≤ top_k
      ∧ (∀ c ∈ RuleRetriever.retrieve queryResults top_k,
          ∃ d, queryResults.flatten.find? (fun e => e.contentHash == c.contentHash) = some d
            ∧ d.content = c.content ∧ d.contentHash = c.contentHash)
      ∧ (∀ c ∈ RuleRetriever.retrieve queryResults top_k,
          (∀ d ∈ queryResults.flatten, d.contentHash = c.contentHash → d.score ≤ c.score)
          ∧ ∃ d ∈ queryResults.flatten, d.contentHash = c.contentHash ∧ d.score = c.score)
      ∧ ∀ c ∈ RuleRetriever.retrieve queryResults top_k,
          ∀ d ∈ RuleRetriever.dedupBest queryResults.flatten [],
            (∀ e ∈ RuleRetriever.retrieve queryResults top_k, e.contentHash ≠ d.contentHash) →
              d.score ≤ c.score := by
  intro qr k
  set dd := RuleRetriever.dedupBest qr.flatten [] with hdd
  set sorted := List.insertionSort RuleRetriever.rankGE dd with hsorted
  have hout : RuleRetriever.retrieve qr k = sorted.take k := rfl
  have hperm : sorted.Perm dd := List.perm_insertionSort RuleRetriever.rankGE dd
  have hmem_dd : ∀ c ∈ RuleRetriever.retrieve qr k, c ∈ dd := by
    intro c hc
    rw [hout] at hc
    exact hperm.mem_iff.mp ((List.take_sublist k sorted).mem hc)
  refine ⟨?_, ?_, ?_, ?_, ?_⟩
  · rw [hout]
    refine List.Pairwise.sublist (List.take_sublist k sorted) ?_
    exact (hperm.pairwise_iff fun h => h.symm).mpr (RuleRetriever.dedupBest_pairwise _ _)
  · rw [hout, List.length_take]
    exact min_le_left _ _
  · intro c hc
    exact RuleRetriever.mem_dedupBest_first_occurrence _ _ c (hmem_dd c hc)
  · intro c hc
    exact RuleRetriever.mem_dedupBest_best_score _ _ c (hmem_dd c hc)
  · intro c hc d hd hne
    have hsortpw : sorted.Pairwise RuleRetriever.rankGE := by
      have := List.sorted_insertionSort RuleRetriever.rankGE dd
      rw [← hsorted] at this
      exact this
    have hsplit : sorted = sorted.take k ++ sorted.drop k := (List.take_append_drop k sorted).symm
    have happ := List.pairwise_append.mp (hsplit ▸ hsortpw)
    have hd_sorted : d ∈ sorted := hperm.mem_iff.mpr hd
    have hd_drop : d ∈ sorted.drop k := by
      rcases List.mem_append.mp (hsplit ▸ hd_sorted) with h1 | h1
      · exact absurd rfl (hne d (hout ▸ h1))
      · exact h1
    have hc_take : c ∈ sorted.take k := hout ▸ hc
    exact happ.2.2 c hc_take d hd_drop
/-- Witness for C4 at `top_k = 1`: the kept chunk is the duplicate-free
first occurrence of hash 1 ranked at its best score 3, and the dropped
deduplicated chunk of hash 2 ranks no higher. -/
theorem retrieve_dedup_and_rank_witness :
    (∃ d, retrieveWitnessQueries.flatten.find?
        (fun e => e.contentHash == (1 : Nat)) = some d
      ∧ d.content = "rule text one" ∧ d.contentHash = 1)
    ∧ ((⟨2, "rule text two", (2 : ℚ)⟩ : ScoredChunk).score
        ≤ (⟨1, "rule text one", (3 : ℚ)⟩ : ScoredChunk).score) := by
  have h := retrieve_dedup_and_rank retrieveWitnessQueries 1
  have hc : (⟨1, "rule text one", (3 : ℚ)⟩ : ScoredChunk)
      ∈ RuleRetriever.retrieve retrieveWitnessQueries 1 := by decide
  refine ⟨h.2.2.1 _ hc, ?_⟩
  exact h.2.2.2.2 _ hc ⟨2, "rule text two", (2 : ℚ)⟩ (by decide) (by decide)
/-- C5: the pipeline returns exactly one ValidationResult per input row,
and the sequence of results preserves the order of the input rows: the
i-th result is the processed i-th row, for every i. -/
theorem pipeline_one_result_per_row :
    ∀ (env : PipelineEnv) (rows : List (String × RawRow)),
      (PipelineOrchestrator.runBatch env rows).length = rows.length
      ∧ ∀ i : Nat,
          (PipelineOrchestrator.runBatch env rows)[i]?
            = rows[i]?.map fun p => PipelineOrchestrator.processRow env p.1 p.2 := by
  intro env rows
  induction rows with
  | nil =>
    exact ⟨rfl, fun i => by cases i <;> rfl⟩
  | cons p rest ih =>
    refine ⟨?_, ?_⟩
    · rw [show PipelineOrchestrator.runBatch env (p :: rest)
            = PipelineOrchestrator.processRow env p.1 p.2
              :: PipelineOrchestrator.runBatch env rest from rfl]
      rw [List.length_cons, List.length_cons, ih.1]
    · intro i
      rw [show PipelineOrchestrator.runBatch env (p :: rest)
            = PipelineOrchestrator.processRow env p.1 p.2
              :: PipelineOrchestrator.runBatch env rest from rfl]
      cases i with
      | zero =>
        rw [List.getElem?_cons_zero, List.getElem?_cons_zero]
        rfl
      | succ j =>
        rw [List.getElem?_cons_succ, List.getElem?_cons_succ]
        exact ih.2 j

/-- C2: a ValidationResult has `status = Validated` iff
`error_type = NoError`: this holds for every output of the aggregator and
for every result the pipeline produces for a row; accordingly the results
table classifies a claim as overall valid exactly when
`status = "Validated"` and `error_type = "No error"`, and as invalid in
every other combination. -/
theorem validated_iff_no_error :
    (∀ (tf : List RuleFinding) (lv : LLMVerdict),
        (ResultAggregator.merge tf lv).status = VStatus.Validated
          ↔ (ResultAggregator.merge tf lv).error_type = ErrorType.NoError)
    ∧ (∀ (env : PipelineEnv) (claim_id : String) (row : RawRow),
        (PipelineOrchestrator.processRow env claim_id row).status = VStatus.Validated
          ↔ (PipelineOrchestrator.processRow env claim_id row).error_type = ErrorType.NoError)
    ∧ ∀ c : ClaimRow,
        getOverallStatus c = "✅ VALID"
          ↔ (c.status = "Validated" ∧ c.error_type = "No error") := by
  have hm : ∀ (tf : List RuleFinding) (lv : LLMVerdict),
      (ResultAggregator.merge tf lv).status = VStatus.Validated
        ↔ (ResultAggregator.merge tf lv).error_type = ErrorType.NoError := by
    intro tf lv
    unfold ResultAggregator.merge
    by_cases ht : tf = [] <;> by_cases hmed : lv.medical_status = RuleStatus.fail <;>
      simp [ht, hmed]
  refine ⟨hm, ?_, ?_⟩
  · intro env claim_id row
    unfold PipelineOrchestrator.processRow
    cases hi : ingestRow claim_id row with
    | none => simp [PipelineOrchestrator.erroredResult]
    | some claim => exact hm _ _
  · intro c
    unfold getOverallStatus
    by_cases h : c.status = "Validated" ∧ c.error_type = "No error" <;> simp [h]

/-- Witness for C2 at concrete inputs: the aggregator on an empty finding
list and a PASS verdict, and one concrete table row. -/
theorem validated_iff_no_error_witness :
    ((ResultAggregator.merge [] ⟨RuleStatus.pass, RuleStatus.pass, "ok", "approve", 1⟩).status
        = VStatus.Validated
      ↔ (ResultAggregator.merge []
          ⟨RuleStatus.pass, RuleStatus.pass, "ok", "approve", 1⟩).error_type
        = ErrorType.NoError)
    ∧ (getOverallStatus ⟨"CLM-1", "Validated", "No error", [], [], []⟩ = "✅ VALID"
      ↔ ("Validated" = "Validated" ∧ "No error" = "No error")) :=
  ⟨validated_iff_no_error.1 [] _, validated_iff_no_error.2.2 _⟩

/-- Witness for C7 at concrete inputs: a failing medical verdict, and a
row with one medical error. -/
theorem medical_error_from_llm_witness :
    ((ResultAggregator.merge []
        ⟨RuleStatus.pass, RuleStatus.fail, "ok", "deny", 1⟩).error_type.includesMedical
      ↔ (⟨RuleStatus.pass, RuleStatus.fail, "ok", "deny", 1⟩ : LLMVerdict).medical_status
        = RuleStatus.fail)
    ∧ (getMedicalValidationStatus
          ⟨"CLM-1", "Not validated", "Medical error", [⟨some "m"⟩], [], []⟩ = "FAIL"
      ↔ ([⟨some "m"⟩] : List RuleError) ≠ []) :=
  ⟨medical_error_from_llm.1 [] _, medical_error_from_llm.2.2 _⟩

/-- Witness for C6 at a concrete store, claim id and inputs. -/
theorem merge_idempotent_witness :
    applyRun (applyRun [] "CLM-1" [] ⟨RuleStatus.pass, RuleStatus.pass, "ok", "approve", 1⟩)
        "CLM-1" [] ⟨RuleStatus.pass, RuleStatus.pass, "ok", "approve", 1⟩
      = applyRun [] "CLM-1" [] ⟨RuleStatus.pass, RuleStatus.pass, "ok", "approve", 1⟩ :=
  (merge_idempotent [] "CLM-1" [] _).1

/-- Witness for C8 at a concrete tenant id. -/
theorem create_tenant_guard_witness :
    (handleCreateTenant "tenant-2024").isSome
      ↔ (jsTrim "tenant-2024" ≠ "" ∧ jsToLower "tenant-2024" ≠ "default"
          ∧ tenantIdPatternOk "tenant-2024" = true) :=
  create_tenant_guard "tenant-2024"

/-- Witness for the amended C9 at a concrete row with details in all
three lists. -/
theorem failure_reasons_amended_witness :
    getFailureReasons ⟨"CLM-3", "Not validated", "Both", [⟨some "med"⟩], [⟨some "tech"⟩], [⟨none⟩]⟩
      = (if reasonsList ⟨"CLM-3", "Not validated", "Both",
            [⟨some "med"⟩], [⟨some "tech"⟩], [⟨none⟩]⟩ = [] then "No errors"
          else joinSep "; " (reasonsList ⟨"CLM-3", "Not validated", "Both",
            [⟨some "med"⟩], [⟨some "tech"⟩], [⟨none⟩]⟩)) :=
  (failure_reasons_amended _).1

/-- Witness for C5 at a concrete batch of two rows. -/
theorem pipeline_one_result_per_row_witness :
    (PipelineOrchestrator.runBatch pipelineWitnessEnv pipelineWitnessRows).length
      = pipelineWitnessRows.length :=
  (pipeline_one_result_per_row pipelineWitnessEnv pipelineWitnessRows).1
